import Mathlib

/-!
# Verification of the carbon-controller contract

A shallow embedding of `src/carbon-controller/src/lib.rs` (a Soroban smart
contract).  Machine integers (`i128`) are modelled as `Int` together with
explicit range checks where the source performs checked arithmetic.
Contract storage is modelled as association lists where a `set` prepends
(last write shadows earlier ones) and lookup returns the most recent write,
matching the key-value store semantics.  Each host panic site of the source
is mapped to one constructor of an error type; a call that panics returns
`Except.error` and produces no state change and no ledger effect, matching
the all-or-nothing transaction semantics of the host.  Calls to external
token contracts (`mint`, `burn`, `transfer_from`) are recorded as an effect
trace, interpreted separately against a ledger model.
-/

namespace Carbon

/-- Soroban `Symbol` values, modelled as strings. -/
abbrev Symbol := String

/-- Soroban `Address` values, modelled as strings. -/
abbrev Address := String

/-- Lower bound of the Rust `i128` type. -/
def I128_MIN : Int := -(2 ^ 127)

/-- Upper bound of the Rust `i128` type. -/
def I128_MAX : Int := 2 ^ 127 - 1

/-- `a` fits in `i128`. -/
def inI128 (a : Int) : Prop := I128_MIN ≤ a ∧ a ≤ I128_MAX

instance (a : Int) : Decidable (inI128 a) := by unfold inI128; infer_instance

/-- Rust `i128::checked_mul`: the product, or `none` when it leaves the
`i128` range. -/
def checked_mul (a b : Int) : Option Int :=
  if I128_MIN ≤ a * b ∧ a * b ≤ I128_MAX then some (a * b) else none

/-- `CarbonAssetMeta` from the source: metadata stored per asset code. -/
structure CarbonAssetMeta where
  project_id : Int
  vintage_year : Int
  token : Address
  admin : Address
deriving DecidableEq, Repr

/-- `Listing` from the source: a seller's standing offer. -/
structure Listing where
  asset_code : Symbol
  seller : Address
  amount : Int
  price : Int
deriving DecidableEq, Repr

/-- Association-list lookup returning the most recent binding. -/
def alookup {α β : Type} [DecidableEq α] (k : α) : List (α × β) → Option β
  | [] => none
  | (k', v) :: rest => if k = k' then some v else alookup k rest

/-- Storage `set`: the new binding shadows any earlier one. -/
def aset {α β : Type} (k : α) (v : β) (l : List (α × β)) : List (α × β) :=
  (k, v) :: l

/-- Storage `remove`: drop every binding for the key. -/
def aremove {α β : Type} [DecidableEq α] (k : α) :
    List (α × β) → List (α × β)
  | [] => []
  | (k', v) :: rest =>
    if k' = k then aremove k rest else (k', v) :: aremove k rest

/-- The contract's instance storage: the three `DataKey` families of the
source (`Asset(Symbol)`, `XmlToken`, `Listing(Symbol, Address)`). -/
structure ContractState where
  assets : List (Symbol × CarbonAssetMeta)
  xmlToken : Option Address
  listings : List ((Symbol × Address) × Listing)
deriving DecidableEq, Repr

/-- Errors: one constructor per host panic site of the source, named after
the spec's error kinds.  The comment gives the source panic message. -/
inductive Err where
  /-- `require_auth` failure. -/
  | Unauthorized
  /-- `"amount must be positive"` / `"price must be positive"`. -/
  | InvalidArgument
  /-- `"asset not registered"` / `"listing not found"`. -/
  | NotFound
  /-- `"not enough listed amount"`. -/
  | InsufficientLiquidity
  /-- `"XML token not set"`. -/
  | NotConfigured
  /-- `"overflow in price calc"`. -/
  | ArithmeticOverflow
  /-- `"price exceeds max_xml"`. -/
  | PriceExceedsCap
deriving DecidableEq, Repr

/-- A call to an external token contract, or an event publication,
recorded in order of execution. -/
inductive Effect where
  | mint (token dst : Address) (amount : Int)
  | burn (token frm : Address) (amount : Int)
  | transfer_from (token spender frm dst : Address) (amount : Int)
  | retireEvent (asset_code : Symbol) (holder : Address) (amount : Int)
      (project_id vintage_year : Int) (note : String)
deriving DecidableEq, Repr

instance {e a : Type} [DecidableEq e] [DecidableEq a] :
    DecidableEq (Except e a) := fun x y =>
  match x, y with
  | .error u, .error v => decidable_of_iff (u = v) (by simp)
  | .error _, .ok _ => isFalse (fun hc => Except.noConfusion hc)
  | .ok _, .error _ => isFalse (fun hc => Except.noConfusion hc)
  | .ok u, .ok v => decidable_of_iff (u = v) (by simp)

/-- The set of identities that authorized the current invocation;
`require_auth a` succeeds iff `auths a`. -/
abbrev Auths := Address → Bool

/-- `Address::require_auth`. -/
def require_auth (auths : Auths) (a : Address) : Except Err Unit :=
  if auths a then pure () else throw Err.Unauthorized

/-- `read_asset` from the source: instance-storage lookup of
`DataKey::Asset(code)`, panicking `"asset not registered"` when absent. -/
def read_asset (s : ContractState) (code : Symbol) :
    Except Err CarbonAssetMeta :=
  match alookup code s.assets with
  | some m => pure m
  | none => throw Err.NotFound

/-- `register_asset` from the source: requires the supplied admin's
authorization, then overwrites the metadata for `asset_code`. -/
def register_asset (auths : Auths) (s : ContractState) (asset_code : Symbol)
    (project_id vintage_year : Int) (token admin : Address) :
    Except Err ContractState := do
  require_auth auths admin
  let meta : CarbonAssetMeta :=
    { project_id, vintage_year, token, admin }
  pure { s with assets := aset asset_code meta s.assets }

/-- `mint_to_issuer` from the source: resolves the asset, requires the
registered admin's authorization, then calls `mint` on the asset's token. -/
def mint_to_issuer (auths : Auths) (s : ContractState) (asset_code : Symbol)
    (issuer : Address) (amount : Int) :
    Except Err (ContractState × List Effect) := do
  let meta ← read_asset s asset_code
  require_auth auths meta.admin
  pure (s, [Effect.mint meta.token issuer amount])

/-- `retire` from the source: resolves the asset, requires the holder's
authorization, burns `amount` from the holder, then publishes one
`CarbonRetireEvent`.  The burn effect precedes the event in the trace. -/
def retire (auths : Auths) (s : ContractState) (asset_code : Symbol)
    (frm : Address) (amount : Int) (note : String) :
    Except Err (ContractState × List Effect) := do
  let meta ← read_asset s asset_code
  require_auth auths frm
  pure (s, [Effect.burn meta.token frm amount,
            Effect.retireEvent asset_code frm amount meta.project_id
              meta.vintage_year note])

/-- `asset_info` from the source: read-only lookup. -/
def asset_info (s : ContractState) (asset_code : Symbol) :
    Except Err CarbonAssetMeta :=
  read_asset s asset_code

/-- `set_xml_token` from the source: requires only the caller's own
authorization, then overwrites the global XML token reference. -/
def set_xml_token (auths : Auths) (s : ContractState)
    (caller xml_token : Address) : Except Err ContractState := do
  require_auth auths caller
  pure { s with xmlToken := some xml_token }

/-- `list_asset` from the source: requires the seller's authorization,
requires the asset to be registered, validates `amount > 0` and
`price > 0`, then writes the listing under `(asset_code, seller)`. -/
def list_asset (auths : Auths) (s : ContractState) (seller : Address)
    (asset_code : Symbol) (amount price : Int) : Except Err ContractState := do
  require_auth auths seller
  let _meta ← read_asset s asset_code
  if amount ≤ 0 then throw Err.InvalidArgument
  else if price ≤ 0 then throw Err.InvalidArgument
  else
    let listing : Listing := { asset_code, seller, amount, price }
    pure { s with listings := aset (asset_code, seller) listing s.listings }

/-- `buy_with_xml` from the source: the atomic settlement entry point.
Checks, in source order: buyer authorization; `amount > 0`; listing
existence; `amount ≤ listing.amount`; asset registration; XML token
configuration; overflow-checked `cost_xml = amount * listing.price`;
`cost_xml ≤ max_xml`.  On success it transfers `cost_xml` XML from buyer
to seller and `amount` carbon tokens from seller to buyer, then stores the
decremented listing, or removes it when the remainder is not positive. -/
def buy_with_xml (auths : Auths) (s : ContractState) (buyer : Address)
    (asset_code : Symbol) (seller : Address) (amount max_xml : Int) :
    Except Err (ContractState × List Effect) := do
  require_auth auths buyer
  if amount ≤ 0 then throw Err.InvalidArgument
  else
    match alookup (asset_code, seller) s.listings with
    | none => throw Err.NotFound
    | some listing =>
      if amount > listing.amount then throw Err.InsufficientLiquidity
      else do
        let meta ← read_asset s asset_code
        match s.xmlToken with
        | none => throw Err.NotConfigured
        | some xml_token =>
          match checked_mul amount listing.price with
          | none => throw Err.ArithmeticOverflow
          | some cost_xml =>
            if cost_xml > max_xml then throw Err.PriceExceedsCap
            else
              let effs :=
                [Effect.transfer_from xml_token buyer buyer seller cost_xml,
                 Effect.transfer_from meta.token seller seller buyer amount]
              let newAmount := listing.amount - amount
              let listings' :=
                if newAmount > 0 then
                  aset (asset_code, seller)
                    { listing with amount := newAmount } s.listings
                else aremove (asset_code, seller) s.listings
              pure ({ s with listings := listings' }, effs)

/-- Modelled from the spec: the external Fungible Ledger Client (§6) is not
part of this repository; it is modelled as per-(token, holder) balances.
Spender authorization is taken as pre-granted (the spec's off-chain
prerequisite); a `burn` or `transfer_authorized` fails when the amount is
negative or exceeds the holder's balance, and such a failure propagates and
aborts the whole call (§7). -/
structure Ledger where
  balances : List ((Address × Address) × Int)
deriving DecidableEq, Repr

/-- Balance of `holder` on token contract `token` (zero when absent). -/
def balanceOf (l : Ledger) (token holder : Address) : Int :=
  (alookup (token, holder) l.balances).getD 0

/-- Overwrite one balance. -/
def setBalance (l : Ledger) (token holder : Address) (v : Int) : Ledger :=
  { balances := aset (token, holder) v l.balances }

/-- Modelled from the spec: apply one external-ledger call; `none` is a
ledger-level failure.  Event publication always succeeds. -/
def applyEffect (l : Ledger) : Effect → Option Ledger
  | .mint token dst amount =>
      if 0 ≤ amount then
        some (setBalance l token dst (balanceOf l token dst + amount))
      else none
  | .burn token frm amount =>
      if 0 ≤ amount ∧ amount ≤ balanceOf l token frm then
        some (setBalance l token frm (balanceOf l token frm - amount))
      else none
  | .transfer_from token _spender frm dst amount =>
      if 0 ≤ amount ∧ amount ≤ balanceOf l token frm then
        let l' := setBalance l token frm (balanceOf l token frm - amount)
        some (setBalance l' token dst (balanceOf l' token dst + amount))
      else none
  | .retireEvent _ _ _ _ _ _ => some l

/-- Run an effect trace left to right; the first failure fails the run. -/
def runEffects (l : Ledger) : List Effect → Option Ledger
  | [] => some l
  | e :: es =>
    match applyEffect l e with
    | some l' => runEffects l' es
    | none => none

/-- Is this effect an event publication? -/
def isRetireEvent : Effect → Bool
  | .retireEvent _ _ _ _ _ _ => true
  | _ => false

/-- The events contained in a trace. -/
def eventsOf (effs : List Effect) : List Effect :=
  effs.filter isRetireEvent

/-- Contract storage together with the external ledgers. -/
structure World where
  contract : ContractState
  ledger : Ledger
deriving DecidableEq, Repr

/-- Host transaction semantics: a call commits — new state, new ledger,
published events — only when the controller and every external-ledger call
succeed; otherwise nothing is written and nothing is emitted. -/
def runCall (w : World) (c : Except Err (ContractState × List Effect)) :
    Option (World × List Effect) :=
  match c with
  | .error _ => none
  | .ok (s', effs) =>
    match runEffects w.ledger effs with
    | some l' => some (⟨s', l'⟩, eventsOf effs)
    | none => none

/-- End-to-end `retire`: controller plus ledger. -/
def retire_run (auths : Auths) (w : World) (asset_code : Symbol)
    (frm : Address) (amount : Int) (note : String) :
    Option (World × List Effect) :=
  runCall w (retire auths w.contract asset_code frm amount note)

/-- End-to-end `buy_with_xml`: controller plus ledger. -/
def buy_run (auths : Auths) (w : World) (buyer : Address)
    (asset_code : Symbol) (seller : Address) (amount max_xml : Int) :
    Option (World × List Effect) :=
  runCall w (buy_with_xml auths w.contract buyer asset_code seller amount max_xml)

/-- End-to-end `mint_to_issuer`: controller plus ledger. -/
def mint_run (auths : Auths) (w : World) (asset_code : Symbol)
    (issuer : Address) (amount : Int) : Option (World × List Effect) :=
  runCall w (mint_to_issuer auths w.contract asset_code issuer amount)

/-- Every listing reachable by lookup has positive amount and price. -/
def ListingsWF (s : ContractState) : Prop :=
  ∀ k l, alookup k s.listings = some l → 0 < l.amount ∧ 0 < l.price

/-! ## Helper lemmas about the storage model -/

theorem alookup_aset {α β : Type} [DecidableEq α] (k k' : α) (v : β)
    (l : List (α × β)) :
    alookup k (aset k' v l) = if k = k' then some v else alookup k l := rfl

theorem alookup_aremove {α β : Type} [DecidableEq α] (k k' : α)
    (l : List (α × β)) :
    alookup k (aremove k' l) = if k = k' then none else alookup k l := by
  induction l with
  | nil => simp [aremove, alookup]
  | cons kv rest ih =>
    obtain ⟨k0, v0⟩ := kv
    by_cases h0 : k0 = k'
    · subst h0
      by_cases hk : k = k0
      · subst hk
        simp [aremove, ih]
      · simp [aremove, alookup, hk, ih]
    · by_cases hk : k = k0
      · subst hk
        simp [aremove, alookup, h0]
      · simp [aremove, alookup, h0, hk, ih]

/-! ## Case analysis of `buy_with_xml` -/

theorem buy_err_unauthorized (auths : Auths) (s : ContractState)
    (buyer : Address) (code : Symbol) (seller : Address) (amount max_xml : Int)
    (h : auths buyer = false) :
    buy_with_xml auths s buyer code seller amount max_xml =
      .error Err.Unauthorized := by
  simp [buy_with_xml, require_auth, h, throw, throwThe, Except.error]
  try rfl

theorem buy_err_invalid (auths : Auths) (s : ContractState)
    (buyer : Address) (code : Symbol) (seller : Address) (amount max_xml : Int)
    (ha : auths buyer = true) (h : amount ≤ 0) :
    buy_with_xml auths s buyer code seller amount max_xml =
      .error Err.InvalidArgument := by
  simp [buy_with_xml, require_auth, ha, h, throw, throwThe, Except.error,
    pure, Except.pure]
  try rfl

theorem buy_err_no_listing (auths : Auths) (s : ContractState)
    (buyer : Address) (code : Symbol) (seller : Address) (amount max_xml : Int)
    (ha : auths buyer = true) (hpos : 0 < amount)
    (hl : alookup (code, seller) s.listings = none) :
    buy_with_xml auths s buyer code seller amount max_xml =
      .error Err.NotFound := by
  simp [buy_with_xml, require_auth, ha, hl, show ¬ amount ≤ 0 by omega,
    throw, throwThe, Except.error, pure, Except.pure]
  try rfl

theorem buy_err_liquidity (auths : Auths) (s : ContractState)
    (buyer : Address) (code : Symbol) (seller : Address) (amount max_xml : Int)
    (l : Listing)
    (ha : auths buyer = true) (hpos : 0 < amount)
    (hl : alookup (code, seller) s.listings = some l)
    (hgt : l.amount < amount) :
    buy_with_xml auths s buyer code seller amount max_xml =
      .error Err.InsufficientLiquidity := by
  simp [buy_with_xml, require_auth, ha, hl, show ¬ amount ≤ 0 by omega,
    show amount > l.amount by omega, throw, throwThe, Except.error,
    pure, Except.pure]
  try rfl

theorem buy_err_no_asset (auths : Auths) (s : ContractState)
    (buyer : Address) (code : Symbol) (seller : Address) (amount max_xml : Int)
    (l : Listing)
    (ha : auths buyer = true) (hpos : 0 < amount)
    (hl : alookup (code, seller) s.listings = some l)
    (hle : amount ≤ l.amount)
    (hm : alookup code s.assets = none) :
    buy_with_xml auths s buyer code seller amount max_xml =
      .error Err.NotFound := by
  simp [buy_with_xml, require_auth, read_asset, ha, hl, hm,
    show ¬ amount ≤ 0 by omega, show ¬ amount > l.amount by omega,
    throw, throwThe, Except.error, pure, Except.pure]
  try rfl

theorem buy_err_no_xml (auths : Auths) (s : ContractState)
    (buyer : Address) (code : Symbol) (seller : Address) (amount max_xml : Int)
    (l : Listing) (meta : CarbonAssetMeta)
    (ha : auths buyer = true) (hpos : 0 < amount)
    (hl : alookup (code, seller) s.listings = some l)
    (hle : amount ≤ l.amount)
    (hm : alookup code s.assets = some meta)
    (hx : s.xmlToken = none) :
    buy_with_xml auths s buyer code seller amount max_xml =
      .error Err.NotConfigured := by
  simp [buy_with_xml, require_auth, read_asset, ha, hl, hm, hx,
    show ¬ amount ≤ 0 by omega, show ¬ amount > l.amount by omega,
    throw, throwThe, Except.error, pure, Except.pure]
  try rfl

theorem buy_err_overflow (auths : Auths) (s : ContractState)
    (buyer : Address) (code : Symbol) (seller : Address) (amount max_xml : Int)
    (l : Listing) (meta : CarbonAssetMeta) (xml : Address)
    (ha : auths buyer = true) (hpos : 0 < amount)
    (hl : alookup (code, seller) s.listings = some l)
    (hle : amount ≤ l.amount)
    (hm : alookup code s.assets = some meta)
    (hx : s.xmlToken = some xml)
    (hov : checked_mul amount l.price = none) :
    buy_with_xml auths s buyer code seller amount max_xml =
      .error Err.ArithmeticOverflow := by
  simp [buy_with_xml, require_auth, read_asset, ha, hl, hm, hx, hov,
    show ¬ amount ≤ 0 by omega, show ¬ amount > l.amount by omega,
    throw, throwThe, Except.error, pure, Except.pure]
  try rfl

theorem buy_err_cap (auths : Auths) (s : ContractState)
    (buyer : Address) (code : Symbol) (seller : Address) (amount max_xml : Int)
    (l : Listing) (meta : CarbonAssetMeta) (xml : Address) (cost : Int)
    (ha : auths buyer = true) (hpos : 0 < amount)
    (hl : alookup (code, seller) s.listings = some l)
    (hle : amount ≤ l.amount)
    (hm : alookup code s.assets = some meta)
    (hx : s.xmlToken = some xml)
    (hc : checked_mul amount l.price = some cost)
    (hcap : max_xml < cost) :
    buy_with_xml auths s buyer code seller amount max_xml =
      .error Err.PriceExceedsCap := by
  simp [buy_with_xml, require_auth, read_asset, ha, hl, hm, hx, hc,
    show ¬ amount ≤ 0 by omega, show ¬ amount > l.amount by omega,
    show cost > max_xml by omega, throw, throwThe, Except.error,
    pure, Except.pure]
  try rfl

theorem checked_mul_some {a b c : Int} (h : checked_mul a b = some c) :
    c = a * b ∧ inI128 (a * b) := by
  unfold checked_mul at h
  split at h
  · exact ⟨(Option.some.injEq _ _ ▸ h).symm, by assumption⟩
  · cases h

theorem checked_mul_none {a b : Int} (h : checked_mul a b = none) :
    ¬ inI128 (a * b) := by
  unfold checked_mul at h
  split at h
  · cases h
  · assumption

theorem checked_mul_of_inI128 {a b : Int} (h : inI128 (a * b)) :
    checked_mul a b = some (a * b) := by
  unfold checked_mul
  exact if_pos h

/-- Inversion of a successful `buy_with_xml`: every check passed, the effect
trace is the two transfers at cost `amount * l.price`, and the listing book
holds the decremented listing, or drops the key when it was bought out. -/
theorem buy_ok_elim (auths : Auths) (s : ContractState) (buyer : Address)
    (code : Symbol) (seller : Address) (amount max_xml : Int)
    (s' : ContractState) (effs : List Effect)
    (h : buy_with_xml auths s buyer code seller amount max_xml =
      .ok (s', effs)) :
    auths buyer = true ∧ 0 < amount ∧
    ∃ l meta xml,
      alookup (code, seller) s.listings = some l ∧
      amount ≤ l.amount ∧
      alookup code s.assets = some meta ∧
      s.xmlToken = some xml ∧
      inI128 (amount * l.price) ∧
      amount * l.price ≤ max_xml ∧
      effs = [Effect.transfer_from xml buyer buyer seller (amount * l.price),
              Effect.transfer_from meta.token seller seller buyer amount] ∧
      s'.assets = s.assets ∧ s'.xmlToken = s.xmlToken ∧
      (amount < l.amount →
        s'.listings =
          aset (code, seller) { l with amount := l.amount - amount }
            s.listings) ∧
      (amount = l.amount →
        s'.listings = aremove (code, seller) s.listings) := by
  by_cases ha : auths buyer = true
  · by_cases hpos : amount ≤ 0
    · rw [buy_err_invalid auths s buyer code seller amount max_xml ha hpos]
        at h
      cases h
    · cases hl : alookup (code, seller) s.listings with
      | none =>
        rw [buy_err_no_listing auths s buyer code seller amount max_xml ha
          (by omega) hl] at h
        cases h
      | some l =>
        by_cases hgt : l.amount < amount
        · rw [buy_err_liquidity auths s buyer code seller amount max_xml l ha
            (by omega) hl hgt] at h
          cases h
        · cases hm : alookup code s.assets with
          | none =>
            rw [buy_err_no_asset auths s buyer code seller amount max_xml l ha
              (by omega) hl (by omega) hm] at h
            cases h
          | some meta =>
            cases hx : s.xmlToken with
            | none =>
              rw [buy_err_no_xml auths s buyer code seller amount max_xml l
                meta ha (by omega) hl (by omega) hm hx] at h
              cases h
            | some xml =>
              cases hc : checked_mul amount l.price with
              | none =>
                rw [buy_err_overflow auths s buyer code seller amount max_xml
                  l meta xml ha (by omega) hl (by omega) hm hx hc] at h
                cases h
              | some cost =>
                by_cases hcap : max_xml < cost
                · rw [buy_err_cap auths s buyer code seller amount max_xml l
                    meta xml cost ha (by omega) hl (by omega) hm hx hc hcap]
                    at h
                  cases h
                · obtain ⟨hcost, hrange⟩ := checked_mul_some hc
                  subst hcost
                  rw [buy_with_xml] at h
                  simp [require_auth, read_asset, ha, hl, hm, hx, hc,
                    show ¬ amount ≤ 0 by omega,
                    show ¬ amount > l.amount by omega,
                    show ¬ amount * l.price > max_xml by omega,
                    bind, Except.bind, pure, Except.pure,
                    Prod.mk.injEq] at h
                  obtain ⟨hs', heffs⟩ := h
                  subst hs'
                  subst heffs
                  refine ⟨ha, by omega, l, meta, xml, rfl, by omega, rfl, rfl,
                    hrange, by omega, rfl, rfl, rfl, ?_, ?_⟩
                  · intro hlt
                    simp [hlt]
                  · intro heq
                    simp [show ¬ amount < l.amount by omega]
  · rw [buy_err_unauthorized auths s buyer code seller amount max_xml
      (by simpa using ha)] at h
    cases h

/-! ## Case analysis of the remaining entry points -/

theorem register_asset_ok (auths : Auths) (s : ContractState) (code : Symbol)
    (pid vy : Int) (token admin : Address) (ha : auths admin = true) :
    register_asset auths s code pid vy token admin =
      .ok { s with assets := aset code ⟨pid, vy, token, admin⟩ s.assets } := by
  simp [register_asset, require_auth, ha, pure, Except.pure, bind,
    Except.bind]

theorem list_asset_ok_store (auths : Auths) (s : ContractState)
    (seller : Address) (code : Symbol) (amount price : Int)
    (meta : CarbonAssetMeta)
    (ha : auths seller = true) (hm : alookup code s.assets = some meta)
    (hamt : 0 < amount) (hpr : 0 < price) :
    list_asset auths s seller code amount price =
      .ok { s with
        listings := aset (code, seller) ⟨code, seller, amount, price⟩
          s.listings } := by
  simp [list_asset, require_auth, read_asset, ha, hm,
    show ¬ amount ≤ 0 by omega, show ¬ price ≤ 0 by omega,
    pure, Except.pure, bind, Except.bind]

theorem list_asset_invalid (auths : Auths) (s : ContractState)
    (seller : Address) (code : Symbol) (amount price : Int)
    (meta : CarbonAssetMeta)
    (ha : auths seller = true) (hm : alookup code s.assets = some meta)
    (hbad : amount ≤ 0 ∨ price ≤ 0) :
    list_asset auths s seller code amount price =
      .error Err.InvalidArgument := by
  by_cases hamt : amount ≤ 0
  · simp [list_asset, require_auth, read_asset, ha, hm, hamt,
      throw, throwThe, Except.error, pure, Except.pure, bind, Except.bind]
    try rfl
  · have hpr : price ≤ 0 := by omega
    simp [list_asset, require_auth, read_asset, ha, hm, hamt, hpr,
      throw, throwThe, Except.error, pure, Except.pure, bind, Except.bind]
    try rfl

theorem list_asset_unregistered (auths : Auths) (s : ContractState)
    (seller : Address) (code : Symbol) (amount price : Int)
    (ha : auths seller = true) (hm : alookup code s.assets = none) :
    list_asset auths s seller code amount price = .error Err.NotFound := by
  simp [list_asset, require_auth, read_asset, ha, hm,
    throw, throwThe, Except.error, pure, Except.pure, bind, Except.bind]

theorem list_asset_ok_elim (auths : Auths) (s : ContractState)
    (seller : Address) (code : Symbol) (amount price : Int)
    (s' : ContractState)
    (h : list_asset auths s seller code amount price = .ok s') :
    auths seller = true ∧ (∃ meta, alookup code s.assets = some meta) ∧
    0 < amount ∧ 0 < price ∧
    s' = { s with
      listings := aset (code, seller) ⟨code, seller, amount, price⟩
        s.listings } := by
  by_cases ha : auths seller = true
  · cases hm : alookup code s.assets with
    | none => rw [list_asset_unregistered auths s seller code amount price ha
        hm] at h; cases h
    | some meta =>
      by_cases hamt : amount ≤ 0
      · rw [list_asset_invalid auths s seller code amount price meta ha hm
          (Or.inl hamt)] at h
        cases h
      · by_cases hpr : price ≤ 0
        · rw [list_asset_invalid auths s seller code amount price meta ha hm
            (Or.inr hpr)] at h
          cases h
        · rw [list_asset_ok_store auths s seller code amount price meta ha hm
            (by omega) (by omega)] at h
          cases h
          exact ⟨ha, ⟨meta, rfl⟩, by omega, by omega, rfl⟩
  · have : list_asset auths s seller code amount price =
        .error Err.Unauthorized := by
      simp [list_asset, require_auth, show auths seller = false by
        simpa using ha, throw, throwThe, Except.error, bind, Except.bind]
    rw [this] at h
    cases h

theorem mint_to_issuer_ok (auths : Auths) (s : ContractState) (code : Symbol)
    (issuer : Address) (amount : Int) (meta : CarbonAssetMeta)
    (hm : alookup code s.assets = some meta) (ha : auths meta.admin = true) :
    mint_to_issuer auths s code issuer amount =
      .ok (s, [Effect.mint meta.token issuer amount]) := by
  simp [mint_to_issuer, require_auth, read_asset, hm, ha,
    pure, Except.pure, bind, Except.bind]

theorem retire_ok (auths : Auths) (s : ContractState) (code : Symbol)
    (frm : Address) (amount : Int) (note : String) (meta : CarbonAssetMeta)
    (hm : alookup code s.assets = some meta) (ha : auths frm = true) :
    retire auths s code frm amount note =
      .ok (s, [Effect.burn meta.token frm amount,
               Effect.retireEvent code frm amount meta.project_id
                 meta.vintage_year note]) := by
  simp [retire, require_auth, read_asset, hm, ha,
    pure, Except.pure, bind, Except.bind]

theorem retire_unregistered (auths : Auths) (s : ContractState)
    (code : Symbol) (frm : Address) (amount : Int) (note : String)
    (hm : alookup code s.assets = none) :
    retire auths s code frm amount note = .error Err.NotFound := by
  simp [retire, require_auth, read_asset, hm,
    throw, throwThe, Except.error, bind, Except.bind]

theorem retire_unauthorized (auths : Auths) (s : ContractState)
    (code : Symbol) (frm : Address) (amount : Int) (note : String)
    (meta : CarbonAssetMeta)
    (hm : alookup code s.assets = some meta) (ha : auths frm = false) :
    retire auths s code frm amount note = .error Err.Unauthorized := by
  simp [retire, require_auth, read_asset, hm, ha,
    throw, throwThe, Except.error, pure, Except.pure, bind, Except.bind]

theorem balanceOf_setBalance_self (l : Ledger) (t h : Address) (v : Int) :
    balanceOf (setBalance l t h v) t h = v := by
  simp [balanceOf, setBalance, alookup_aset]

theorem checked_mul_eq_none {a b : Int} (h : ¬ inI128 (a * b)) :
    checked_mul a b = none := by
  unfold checked_mul
  exact if_neg h

/-! ## Concrete fixtures used by witnesses -/

/-- An authorization environment granting every identity. -/
def allAuths : Auths := fun _ => true

/-- An authorization environment granting no identity. -/
def noAuths : Auths := fun _ => false

/-- Sample asset metadata. -/
def wMeta : CarbonAssetMeta := ⟨7, 2020, "CARB", "A"⟩

/-- Sample state: asset `"C"` registered, XML token configured, seller
`"S"` listing 5 units at price 2. -/
def wState : ContractState :=
  ⟨[("C", wMeta)], some "XML", [(("C", "S"), ⟨"C", "S", 5, 2⟩)]⟩

/-- Sample state whose listing price makes `amount * price` overflow. -/
def wOvState : ContractState :=
  ⟨[("C", wMeta)], some "XML", [(("C", "S"), ⟨"C", "S", 2, 2 ^ 126⟩)]⟩

/-- Sample world: `wState` plus a holder `"H"` owning 3 carbon units. -/
def wWorld : World := ⟨wState, ⟨[(("CARB", "H"), 3)]⟩⟩

/-! ## Claims -/

/-- C1: `buy_with_xml` checks its eight preconditions in exactly the
spec's order — buyer authorization, `amount > 0`, listing existence,
`amount ≤ listing.amount`, asset registration, settlement-currency
configuration, overflow-checked cost, `cost ≤ max_price_cap` — the first
failing condition aborts the call with that condition's error, and an
aborted call performs no transfer and writes no state (the end-to-end run
commits nothing). -/
theorem buy_precondition_order (auths : Auths) (s : ContractState)
    (buyer : Address) (code : Symbol) (seller : Address)
    (amount max_xml : Int) :
    (auths buyer = false →
      buy_with_xml auths s buyer code seller amount max_xml =
        .error Err.Unauthorized) ∧
    (auths buyer = true → amount ≤ 0 →
      buy_with_xml auths s buyer code seller amount max_xml =
        .error Err.InvalidArgument) ∧
    (auths buyer = true → 0 < amount →
      alookup (code, seller) s.listings = none →
      buy_with_xml auths s buyer code seller amount max_xml =
        .error Err.NotFound) ∧
    (∀ l, auths buyer = true → 0 < amount →
      alookup (code, seller) s.listings = some l → l.amount < amount →
      buy_with_xml auths s buyer code seller amount max_xml =
        .error Err.InsufficientLiquidity) ∧
    (∀ l, auths buyer = true → 0 < amount →
      alookup (code, seller) s.listings = some l → amount ≤ l.amount →
      alookup code s.assets = none →
      buy_with_xml auths s buyer code seller amount max_xml =
        .error Err.NotFound) ∧
    (∀ l meta, auths buyer = true → 0 < amount →
      alookup (code, seller) s.listings = some l → amount ≤ l.amount →
      alookup code s.assets = some meta → s.xmlToken = none →
      buy_with_xml auths s buyer code seller amount max_xml =
        .error Err.NotConfigured) ∧
    (∀ l meta xml, auths buyer = true → 0 < amount →
      alookup (code, seller) s.listings = some l → amount ≤ l.amount →
      alookup code s.assets = some meta → s.xmlToken = some xml →
      checked_mul amount l.price = none →
      buy_with_xml auths s buyer code seller amount max_xml =
        .error Err.ArithmeticOverflow) ∧
    (∀ l meta xml cost, auths buyer = true → 0 < amount →
      alookup (code, seller) s.listings = some l → amount ≤ l.amount →
      alookup code s.assets = some meta → s.xmlToken = some xml →
      checked_mul amount l.price = some cost → max_xml < cost →
      buy_with_xml auths s buyer code seller amount max_xml =
        .error Err.PriceExceedsCap) ∧
    (∀ led e, buy_with_xml auths s buyer code seller amount max_xml =
        .error e →
      buy_run auths ⟨s, led⟩ buyer code seller amount max_xml = none) := by
  refine ⟨?_, ?_, ?_, ?_, ?_, ?_, ?_, ?_, ?_⟩
  · intro h
    exact buy_err_unauthorized auths s buyer code seller amount max_xml h
  · intro ha h
    exact buy_err_invalid auths s buyer code seller amount max_xml ha h
  · intro ha hp hl
    exact buy_err_no_listing auths s buyer code seller amount max_xml ha hp hl
  · intro l ha hp hl hgt
    exact buy_err_liquidity auths s buyer code seller amount max_xml l ha hp
      hl hgt
  · intro l ha hp hl hle hm
    exact buy_err_no_asset auths s buyer code seller amount max_xml l ha hp
      hl (by omega) hm
  · intro l meta ha hp hl hle hm hx
    exact buy_err_no_xml auths s buyer code seller amount max_xml l meta ha
      hp hl (by omega) hm hx
  · intro l meta xml ha hp hl hle hm hx hov
    exact buy_err_overflow auths s buyer code seller amount max_xml l meta
      xml ha hp hl (by omega) hm hx hov
  · intro l meta xml cost ha hp hl hle hm hx hc hcap
    exact buy_err_cap auths s buyer code seller amount max_xml l meta xml
      cost ha hp hl (by omega) hm hx hc hcap
  · intro led e h
    simp [buy_run, runCall, h]

/-- Witness for C1: with no authorization, a concrete `buy_with_xml` call
fails with `Unauthorized`. -/
theorem buy_precondition_order_witness :
    buy_with_xml noAuths wState "B" "C" "S" 1 10 =
      .error Err.Unauthorized :=
  (buy_precondition_order noAuths wState "B" "C" "S" 1 10).1 rfl

/-- C9: `set_xml_token` succeeds for every caller that authorizes its own
call and unconditionally overwrites the global settlement-currency
reference; no check relates the caller to any admin or prior state. -/
theorem set_xml_token_unconditional (auths : Auths) (s : ContractState)
    (caller tok : Address) (h : auths caller = true) :
    set_xml_token auths s caller tok =
      .ok { s with xmlToken := some tok } := by
  simp [set_xml_token, require_auth, h, pure, Except.pure, bind, Except.bind]

/-- Witness for C9 at a concrete caller unrelated to any admin. -/
theorem set_xml_token_unconditional_witness :
    set_xml_token allAuths wState "ANY" "XML2" =
      .ok { wState with xmlToken := some "XML2" } :=
  set_xml_token_unconditional allAuths wState "ANY" "XML2" rfl

/-- C10: `mint_to_issuer` and `retire` perform no positivity validation of
`amount`: for every `i128` amount, zero and negatives included, once the
registration and authorization checks pass the call succeeds and the value
is handed unchanged to the external token client's `mint` or `burn`. -/
theorem mint_retire_no_amount_validation (auths : Auths)
    (s : ContractState) (code : Symbol) (issuer frm : Address)
    (note : String) :
    (∀ amount meta, alookup code s.assets = some meta →
      auths meta.admin = true →
      mint_to_issuer auths s code issuer amount =
        .ok (s, [Effect.mint meta.token issuer amount])) ∧
    (∀ amount meta, alookup code s.assets = some meta → auths frm = true →
      retire auths s code frm amount note =
        .ok (s, [Effect.burn meta.token frm amount,
                 Effect.retireEvent code frm amount meta.project_id
                   meta.vintage_year note])) :=
  ⟨fun amount meta hm ha =>
      mint_to_issuer_ok auths s code issuer amount meta hm ha,
   fun amount meta hm ha =>
      retire_ok auths s code frm amount note meta hm ha⟩

/-- Witness for C10: a negative mint amount and a zero retire amount both
go through unchanged. -/
theorem mint_retire_no_amount_validation_witness :
    mint_to_issuer allAuths wState "C" "I" (-3) =
      .ok (wState, [Effect.mint "CARB" "I" (-3)]) ∧
    retire allAuths wState "C" "H" 0 "n" =
      .ok (wState, [Effect.burn "CARB" "H" 0,
                    Effect.retireEvent "C" "H" 0 7 2020 "n"]) :=
  ⟨(mint_retire_no_amount_validation allAuths wState "C" "I" "H" "n").1
      (-3) wMeta (by decide) rfl,
   (mint_retire_no_amount_validation allAuths wState "C" "I" "H" "n").2
      0 wMeta (by decide) rfl⟩

/-- C6 counterexample: with the seller authorized but the asset code
unregistered, `list_asset` with `amount = 0` fails with `NotFound`, not
`InvalidArgument` — the registration check runs before the positivity
check, so the claim's "whether or not the asset code is registered" is
false. -/
theorem list_asset_nonpositive_unregistered_not_invalid :
    list_asset allAuths (ContractState.mk [] none []) "S" "C" 0 1 =
      .error Err.NotFound ∧ Err.NotFound ≠ Err.InvalidArgument := by
  decide

/-- C6 (amended): with the seller authorized, `list_asset` with
`amount ≤ 0` or `price ≤ 0` fails with `InvalidArgument` when the asset
code is registered; when it is unregistered the call fails with `NotFound`
instead.  Either way the call errors, so the Listing Book is unchanged. -/
theorem list_asset_nonpositive_rejected (auths : Auths)
    (s : ContractState) (seller : Address) (code : Symbol)
    (amount price : Int) (ha : auths seller = true) :
    (∀ meta, alookup code s.assets = some meta →
      amount ≤ 0 ∨ price ≤ 0 →
      list_asset auths s seller code amount price =
        .error Err.InvalidArgument) ∧
    (alookup code s.assets = none →
      list_asset auths s seller code amount price = .error Err.NotFound) :=
  ⟨fun meta hm hbad =>
      list_asset_invalid auths s seller code amount price meta ha hm hbad,
   fun hm => list_asset_unregistered auths s seller code amount price ha hm⟩

/-- Witness for C6 (amended): a registered code with `amount = 0` fails
with `InvalidArgument`. -/
theorem list_asset_nonpositive_rejected_witness :
    list_asset allAuths wState "S" "C" 0 5 = .error Err.InvalidArgument :=
  (list_asset_nonpositive_rejected allAuths wState "S" "C" 0 5 rfl).1
    wMeta (by decide) (Or.inl (by decide))

/-- One registration request of a register-call sequence. -/
structure RegReq where
  project_id : Int
  vintage_year : Int
  token : Address
  admin : Address
deriving DecidableEq, Repr

/-- The metadata a registration request writes. -/
def metaOfReq (r : RegReq) : CarbonAssetMeta :=
  ⟨r.project_id, r.vintage_year, r.token, r.admin⟩

/-- Run a sequence of `register_asset` calls for one code. -/
def registerSeq (auths : Auths) (code : Symbol) (s : ContractState) :
    List RegReq → Except Err ContractState
  | [] => pure s
  | r :: rs => do
    let s1 ← register_asset auths s code r.project_id r.vintage_year
      r.token r.admin
    registerSeq auths code s1 rs

theorem registerSeq_cons (auths : Auths) (code : Symbol)
    (s : ContractState) (r : RegReq) (rs : List RegReq)
    (har : auths r.admin = true) :
    registerSeq auths code s (r :: rs) =
      registerSeq auths code
        { s with assets := aset code (metaOfReq r) s.assets } rs := by
  simp [registerSeq, register_asset_ok auths s code r.project_id
    r.vintage_year r.token r.admin har, bind, Except.bind, metaOfReq]

set_option linter.unusedVariables false in
/-- C8: for every asset code and every sequence of authorized register
calls, a subsequent `asset_info` lookup returns exactly the metadata of
the last call — last-write-wins, no `NotFound`, no merging. -/
theorem register_last_write_wins (auths : Auths) (code : Symbol)
    (reqs : List RegReq) :
    ∀ (hne : reqs ≠ []) (hauth : ∀ r ∈ reqs, auths r.admin = true)
      (s : ContractState), ∃ s',
      registerSeq auths code s reqs = .ok s' ∧
      asset_info s' code = .ok (metaOfReq (reqs.getLast hne)) := by
  induction reqs with
  | nil => intro hne; cases hne rfl
  | cons r rs ih =>
    intro hne hauth s
    have har : auths r.admin = true := hauth r (List.mem_cons_self r rs)
    rw [registerSeq_cons auths code s r rs har]
    cases rs with
    | nil =>
      refine ⟨_, rfl, ?_⟩
      simp [asset_info, read_asset, alookup_aset, List.getLast,
        pure, Except.pure]
    | cons r2 rs2 =>
      obtain ⟨s', h1, h2⟩ := ih (by simp)
        (fun x hx => hauth x (List.mem_cons_of_mem r hx)) _
      refine ⟨s', h1, ?_⟩
      rw [h2]
      simp [List.getLast_cons]

/-- Witness for C8: two successive registrations of `"C"`; lookup returns
the second request's metadata. -/
theorem register_last_write_wins_witness :
    ∃ s', registerSeq allAuths "C" (ContractState.mk [] none [])
        [⟨1, 2001, "T1", "A1"⟩, ⟨2, 2002, "T2", "A2"⟩] = .ok s' ∧
      asset_info s' "C" =
        .ok (metaOfReq (([⟨1, 2001, "T1", "A1"⟩,
          (⟨2, 2002, "T2", "A2"⟩ : RegReq)]).getLast (by decide))) :=
  register_last_write_wins allAuths "C"
    [⟨1, 2001, "T1", "A1"⟩, ⟨2, 2002, "T2", "A2"⟩] (by decide)
    (fun r _ => rfl) (ContractState.mk [] none [])

/-- C3: after a successful buy of `amount` strictly less than the listed
amount, the stored listing for the same (code, seller) key has its amount
reduced by `amount` and its price unchanged, so a subsequent lookup
returns that reduced listing. -/
theorem buy_partial_fill_updates_listing (auths : Auths)
    (s : ContractState) (buyer : Address) (code : Symbol)
    (seller : Address) (amount max_xml : Int) (l : Listing)
    (s' : ContractState) (effs : List Effect)
    (hl : alookup (code, seller) s.listings = some l)
    (hlt : amount < l.amount)
    (h : buy_with_xml auths s buyer code seller amount max_xml =
      .ok (s', effs)) :
    ∃ l', alookup (code, seller) s'.listings = some l' ∧
      l'.amount = l.amount - amount ∧ l'.price = l.price := by
  obtain ⟨-, -, l₀, meta, xml, hl₀, hle, hm, hx, hr, hcap, heffs, hsa, hsx,
    hset, hrem⟩ :=
    buy_ok_elim auths s buyer code seller amount max_xml s' effs h
  have hll : l₀ = l := by
    have := hl₀.symm.trans hl
    exact Option.some.inj this
  subst hll
  refine ⟨{ l₀ with amount := l₀.amount - amount }, ?_, rfl, rfl⟩
  rw [hset hlt, alookup_aset, if_pos rfl]

set_option maxRecDepth 4096 in
/-- Witness for C3: buying 2 of a 5-unit listing leaves 3 at the same
price. -/
theorem buy_partial_fill_updates_listing_witness :
    ∃ l', alookup ("C", "S")
        (ContractState.mk [("C", wMeta)] (some "XML")
          (aset ("C", "S") (Listing.mk "C" "S" 3 2)
            [(("C", "S"), Listing.mk "C" "S" 5 2)])).listings = some l' ∧
      l'.amount = 5 - 2 ∧ l'.price = 2 :=
  buy_partial_fill_updates_listing allAuths wState "B" "C" "S" 2 100
    (Listing.mk "C" "S" 5 2)
    (ContractState.mk [("C", wMeta)] (some "XML")
      (aset ("C", "S") (Listing.mk "C" "S" 3 2)
        [(("C", "S"), Listing.mk "C" "S" 5 2)]))
    [Effect.transfer_from "XML" "B" "B" "S" 4,
     Effect.transfer_from "CARB" "S" "S" "B" 2]
    (by decide) (by decide) (by decide)

/-- C4: `list_asset` and `buy_with_xml` preserve the Listing Book
invariant that every reachable listing has positive amount and price; a
buy of the whole listed amount removes the entry, so the subsequent
lookup finds nothing (`get` fails with `NotFound`). -/
theorem listing_book_positive (auths : Auths) (s : ContractState) :
    (∀ seller code amount price s', ListingsWF s →
      list_asset auths s seller code amount price = .ok s' →
      ListingsWF s') ∧
    (∀ buyer code seller amount max_xml s' effs, ListingsWF s →
      buy_with_xml auths s buyer code seller amount max_xml =
        .ok (s', effs) →
      ListingsWF s') ∧
    (∀ buyer code seller l max_xml s' effs,
      alookup (code, seller) s.listings = some l →
      buy_with_xml auths s buyer code seller l.amount max_xml =
        .ok (s', effs) →
      alookup (code, seller) s'.listings = none) := by
  refine ⟨?_, ?_, ?_⟩
  · intro seller code amount price s' hwf h
    obtain ⟨-, -, hamt, hpr, hs'⟩ :=
      list_asset_ok_elim auths s seller code amount price s' h
    subst hs'
    intro k v hk
    rw [alookup_aset] at hk
    by_cases hkk : k = (code, seller)
    · rw [if_pos hkk] at hk
      cases Option.some.inj hk
      exact ⟨hamt, hpr⟩
    · rw [if_neg hkk] at hk
      exact hwf k v hk
  · intro buyer code seller amount max_xml s' effs hwf h
    obtain ⟨-, hpos, l₀, meta, xml, hl₀, hle, hm, hx, hr, hcap, heffs, hsa,
      hsx, hset, hrem⟩ :=
      buy_ok_elim auths s buyer code seller amount max_xml s' effs h
    obtain ⟨hl₀amt, hl₀pr⟩ := hwf (code, seller) l₀ hl₀
    intro k v hk
    by_cases hfull : amount < l₀.amount
    · rw [hset hfull, alookup_aset] at hk
      by_cases hkk : k = (code, seller)
      · rw [if_pos hkk] at hk
        cases Option.some.inj hk
        exact ⟨show (0 : Int) < l₀.amount - amount by omega,
          show (0 : Int) < l₀.price from hl₀pr⟩
      · rw [if_neg hkk] at hk
        exact hwf k v hk
    · rw [hrem (by omega), alookup_aremove] at hk
      by_cases hkk : k = (code, seller)
      · rw [if_pos hkk] at hk
        cases hk
      · rw [if_neg hkk] at hk
        exact hwf k v hk
  · intro buyer code seller l max_xml s' effs hl h
    obtain ⟨-, hpos, l₀, meta, xml, hl₀, hle, hm, hx, hr, hcap, heffs, hsa,
      hsx, hset, hrem⟩ :=
      buy_ok_elim auths s buyer code seller l.amount max_xml s' effs h
    have hll : l₀ = l := Option.some.inj (hl₀.symm.trans hl)
    subst hll
    rw [hrem rfl, alookup_aremove, if_pos rfl]

set_option maxRecDepth 4096 in
/-- Witness for C4: buying the whole 5-unit listing leaves no entry for
the key. -/
theorem listing_book_positive_witness :
    alookup ("C", "S")
      (ContractState.mk [("C", wMeta)] (some "XML")
        (aremove ("C", "S")
          [(("C", "S"), Listing.mk "C" "S" 5 2)])).listings = none :=
  (listing_book_positive allAuths wState).2.2 "B" "C" "S"
    (Listing.mk "C" "S" 5 2) 100
    (ContractState.mk [("C", wMeta)] (some "XML")
      (aremove ("C", "S") [(("C", "S"), Listing.mk "C" "S" 5 2)]))
    [Effect.transfer_from "XML" "B" "B" "S" 10,
     Effect.transfer_from "CARB" "S" "S" "B" 5]
    (by decide) (by decide)

/-- C5: the cost is computed as `amount * listing.price` with checked
multiplication: when the product leaves the `i128` range the call fails
with `ArithmeticOverflow` and the end-to-end run commits nothing (no
transfer attempted); when the call succeeds, the settlement transfer
carries exactly the mathematical product, which is in range — the
computation never silently wraps. -/
theorem buy_cost_checked_no_wrap (auths : Auths) (s : ContractState)
    (buyer : Address) (code : Symbol) (seller : Address)
    (amount max_xml : Int) :
    (∀ l meta xml, auths buyer = true → 0 < amount →
      alookup (code, seller) s.listings = some l → amount ≤ l.amount →
      alookup code s.assets = some meta → s.xmlToken = some xml →
      ¬ inI128 (amount * l.price) →
      buy_with_xml auths s buyer code seller amount max_xml =
        .error Err.ArithmeticOverflow) ∧
    (∀ l meta xml led, auths buyer = true → 0 < amount →
      alookup (code, seller) s.listings = some l → amount ≤ l.amount →
      alookup code s.assets = some meta → s.xmlToken = some xml →
      ¬ inI128 (amount * l.price) →
      buy_run auths ⟨s, led⟩ buyer code seller amount max_xml = none) ∧
    (∀ s' effs, buy_with_xml auths s buyer code seller amount max_xml =
        .ok (s', effs) →
      ∃ (l : Listing) (meta : CarbonAssetMeta) (xml : Address),
        alookup (code, seller) s.listings = some l ∧
        inI128 (amount * l.price) ∧
        effs = [Effect.transfer_from xml buyer buyer seller
                  (amount * l.price),
                Effect.transfer_from meta.token seller seller buyer
                  amount]) := by
  refine ⟨?_, ?_, ?_⟩
  · intro l meta xml ha hp hl hle hm hx hno
    exact buy_err_overflow auths s buyer code seller amount max_xml l meta
      xml ha hp hl hle hm hx (checked_mul_eq_none hno)
  · intro l meta xml led ha hp hl hle hm hx hno
    have herr := buy_err_overflow auths s buyer code seller amount max_xml
      l meta xml ha hp hl hle hm hx (checked_mul_eq_none hno)
    simp [buy_run, runCall, herr]
  · intro s' effs h
    obtain ⟨-, -, l₀, meta, xml, hl₀, hle, hm, hx, hr, hcap, heffs, -⟩ :=
      buy_ok_elim auths s buyer code seller amount max_xml s' effs h
    exact ⟨l₀, meta, xml, hl₀, hr, heffs⟩

set_option maxRecDepth 4096 in
/-- Witness for C5: a listing priced at `2^126` bought at amount 2 makes
the product `2^127` overflow `i128` and the call aborts. -/
theorem buy_cost_checked_no_wrap_witness :
    buy_with_xml allAuths wOvState "B" "C" "S" 2 1000 =
      .error Err.ArithmeticOverflow :=
  (buy_cost_checked_no_wrap allAuths wOvState "B" "C" "S" 2 1000).1
    (Listing.mk "C" "S" 2 (2 ^ 126)) wMeta "XML" rfl (by decide)
    (by decide) (by decide) (by decide) rfl (by decide)

/-- C7: a successful end-to-end `retire` emits exactly one
`RetirementRecord`, whose amount equals the amount passed to (and debited
by) the ledger burn, and the record follows the burn in the trace; when
the burn fails — here modelled from the spec as a negative amount or an
amount above the holder's balance — the whole call commits nothing and
zero records are emitted. -/
theorem retire_one_record_after_burn (auths : Auths) (w : World)
    (code : Symbol) (frm : Address) (amount : Int) (note : String) :
    (∀ w' evs, retire_run auths w code frm amount note = some (w', evs) →
      ∃ meta : CarbonAssetMeta,
        alookup code w.contract.assets = some meta ∧
        evs = [Effect.retireEvent code frm amount meta.project_id
                meta.vintage_year note] ∧
        balanceOf w'.ledger meta.token frm =
          balanceOf w.ledger meta.token frm - amount) ∧
    (∀ meta : CarbonAssetMeta, alookup code w.contract.assets = some meta →
      ¬ (0 ≤ amount ∧ amount ≤ balanceOf w.ledger meta.token frm) →
      retire_run auths w code frm amount note = none) := by
  constructor
  · intro w' evs h
    cases hm : alookup code w.contract.assets with
    | none =>
      rw [retire_run,
        retire_unregistered auths w.contract code frm amount note hm] at h
      simp [runCall] at h
    | some meta =>
      by_cases ha : auths frm = true
      · rw [retire_run,
          retire_ok auths w.contract code frm amount note meta hm ha] at h
        by_cases hbc : 0 ≤ amount ∧
            amount ≤ balanceOf w.ledger meta.token frm
        · simp [runCall, runEffects, applyEffect, hbc, eventsOf,
            isRetireEvent] at h
          obtain ⟨hw', hevs⟩ := h
          refine ⟨meta, rfl, hevs.symm, ?_⟩
          rw [← hw']
          exact balanceOf_setBalance_self w.ledger meta.token frm
            (balanceOf w.ledger meta.token frm - amount)
        · simp [runCall, runEffects, applyEffect, hbc] at h
      · rw [retire_run, retire_unauthorized auths w.contract code frm amount
          note meta hm (by simpa using ha)] at h
        simp [runCall] at h
  · intro meta hm hbc
    by_cases ha : auths frm = true
    · rw [retire_run,
        retire_ok auths w.contract code frm amount note meta hm ha]
      simp [runCall, runEffects, applyEffect, hbc]
    · rw [retire_run, retire_unauthorized auths w.contract code frm amount
        note meta hm (by simpa using ha)]
      simp [runCall]

/-- Witness for C7: retiring 5 units against a balance of 3 fails the
burn, so the end-to-end run commits nothing and emits no record. -/
theorem retire_one_record_after_burn_witness :
    retire_run allAuths wWorld "C" "H" 5 "n" = none :=
  (retire_one_record_after_burn allAuths wWorld "C" "H" 5 "n").2 wMeta
    (by decide) (by decide)

/-- Authorization environment of the spec's example scenario. -/
def c2Auths : Auths := fun _ => true

/-- Metadata of asset `"VCS001"` registered with admin `"A1"`. -/
def c2Meta : CarbonAssetMeta := ⟨1, 2023, "CARB", "A1"⟩

/-- Scenario state after registration. -/
def c2S1 : ContractState := ⟨[("VCS001", c2Meta)], none, []⟩

/-- Scenario state after the settlement currency is configured. -/
def c2S2 : ContractState := ⟨[("VCS001", c2Meta)], some "XML", []⟩

/-- Scenario state after `I1` lists `500.0000000` units at price
`2.0000000` (raw fixed-point integers, 7 decimals). -/
def c2S3 : ContractState :=
  ⟨[("VCS001", c2Meta)], some "XML",
   [(("VCS001", "I1"), ⟨"VCS001", "I1", 5000000000, 20000000⟩)]⟩

set_option maxRecDepth 8192 in
/-- C2: the spec's example scenario evaluated on the code.  All steps up
to the buy succeed, but the code computes the cost as the raw product
`2000000000 * 20000000 = 4 * 10^16` (which denotes
`4,000,000,000.0000000`, not the spec's `400.0000000 = 4 * 10^9`); the
cost exceeds the cap `4500000000` and the buy aborts with
`PriceExceedsCap` instead of succeeding. -/
theorem buy_scenario_cost_mismatch :
    register_asset c2Auths ⟨[], none, []⟩ "VCS001" 1 2023 "CARB" "A1" =
      .ok c2S1 ∧
    set_xml_token c2Auths c2S1 "A1" "XML" = .ok c2S2 ∧
    mint_to_issuer c2Auths c2S2 "VCS001" "I1" 10000000000 =
      .ok (c2S2, [Effect.mint "CARB" "I1" 10000000000]) ∧
    list_asset c2Auths c2S2 "I1" "VCS001" 5000000000 20000000 =
      .ok c2S3 ∧
    checked_mul 2000000000 20000000 = some 40000000000000000 ∧
    (40000000000000000 : Int) ≠ 4000000000 ∧
    buy_with_xml c2Auths c2S3 "B1" "VCS001" "I1" 2000000000 4500000000 =
      .error Err.PriceExceedsCap := by
  decide

end Carbon
